import Mathlib

/-!
Shallow embedding of the tool-calling orchestration loop of `agent.py`
(`LiteLLMAgent`): the data model (tools, messages, model replies, tool
results), the pure conversion and extraction functions, and the bounded
conversation loop `process_request`, with external collaborators (the MCP
tool provider, the LiteLLM backend, and `json.loads`) supplied as oracles
in an environment record.
-/

namespace Agent

/-- JSON-like values, used for tool schemas and parsed function arguments. -/
inductive Json where
  | null : Json
  | bool (b : Bool) : Json
  | num (n : Int) : Json
  | str (s : String) : Json
  | arr (xs : List Json) : Json
  | obj (fields : List (String × Json)) : Json

/-- `MCPTool` dataclass: a tool fetched from the MCP server.  Its
`input_schema` is a Python dict, modelled as an association list. -/
structure MCPTool where
  name : String
  description : String
  input_schema : List (String × Json)

/-- The default empty-object parameters schema substituted by
`_convert_mcp_tools_to_litellm` when a tool's schema dict is falsy
(empty): `\x7b"type": "object", "properties": \x7b\x7d, "required": []\x7d`. -/
def defaultSchema : List (String × Json) :=
  [("type", Json.str "object"), ("properties", Json.obj []), ("required", Json.arr [])]

/-- A LiteLLM function definition produced from an `MCPTool`. -/
structure FunctionDef where
  name : String
  description : String
  parameters : List (String × Json)

/-- `LiteLLMAgent._convert_mcp_tools_to_litellm`: for each tool emit
`\x7bname, description, parameters\x7d` where `parameters` is the tool's
`input_schema` if that dict is truthy (non-empty) and the default
empty-object schema otherwise. -/
def _convert_mcp_tools_to_litellm (mcp_tools : List MCPTool) : List FunctionDef :=
  mcp_tools.map (fun tool =>
    { name := tool.name
      description := tool.description
      parameters := if tool.input_schema.isEmpty then defaultSchema else tool.input_schema })

/-- The `function_call` sub-dict of an assistant message: `.get("name")`
has no default (hence `Option`), `.get("arguments", "\x7b\x7d")` defaults to
the string `"\x7b\x7d"`. -/
structure FunctionCall where
  name : Option String
  arguments : Option String
deriving DecidableEq

/-- A conversation message dict.  Each field models one optional dict key
(`none` = key absent). -/
structure Msg where
  role : Option String := none
  name : Option String := none
  content : Option String := none
  function_call : Option FunctionCall := none
deriving DecidableEq

/-- The seed message `\x7b"role": "user", "content": request\x7d`. -/
def userMsg (request : String) : Msg :=
  { role := some "user", content := some request }

/-- The empty dict `\x7b\x7d` used as the default message/choice. -/
def emptyMsg : Msg := {}

/-- One element of the backend reply's `choices` list; `message` models
`choice.get("message", \x7b\x7d)`. -/
structure Choice where
  message : Option Msg
deriving DecidableEq

/-- The parsed backend reply body.  `choices = none` models a reply with
no `"choices"` key at all; `usage_total_tokens` models
`reply.get("usage", \x7b\x7d).get("total_tokens", 0)` (`none` = absent). -/
structure LLMResponse where
  choices : Option (List Choice)
  usage_total_tokens : Option Nat
deriving DecidableEq

/-- `llm_response.get("usage", \x7b\x7d).get("total_tokens", 0)`. -/
def usageTokens (resp : LLMResponse) : Nat :=
  resp.usage_total_tokens.getD 0

/-- `llm_response.get("choices", [\x7b\x7d])[0]`: a missing `choices` key
defaults to the one-element list `[\x7b\x7d]`, whose first element is the
empty dict; indexing an empty `choices` list raises
`IndexError("list index out of range")`. -/
def firstChoice (resp : LLMResponse) : Except String Choice :=
  match resp.choices with
  | none => .ok { message := none }
  | some [] => .error "list index out of range"
  | some (c :: _) => .ok c

/-- A content item returned by `session.call_tool` (§6 of the interface:
a content item exposes an optional text field).  `strRepr` is the item's
generic string representation `str(item)`. -/
structure ContentItem where
  text : Option String
  strRepr : String
deriving DecidableEq

/-- The result of `session.call_tool`: an ordered list of content items. -/
structure CallToolResult where
  content : List ContentItem
deriving DecidableEq

/-- The dict returned by `_execute_mcp_tool`: either
`\x7b"result": s\x7d` or `\x7b"error": s\x7d`. -/
inductive ToolExecOutcome where
  | result (s : String) : ToolExecOutcome
  | error (s : String) : ToolExecOutcome
deriving DecidableEq

/-- `LiteLLMAgent._execute_mcp_tool`: calls the tool on the MCP server
(the transport and provider are the `callTool` oracle; a raised exception
is its `.error` case).  On success with content, surfaces
`content[0].text if content[0].text else str(content[0])`; with no
content, a sentinel string; any exception is caught and converted to an
error dict `\x7b"error": f"Tool execution failed: \x7bstr(e)\x7d"\x7d`. -/
def _execute_mcp_tool
    (callTool : Option String → Json → Except String CallToolResult)
    (tool_name : Option String) (arguments : Json) : ToolExecOutcome :=
  match callTool tool_name arguments with
  | .error e => .error ("Tool execution failed: " ++ e)
  | .ok result =>
    match result.content with
    | [] => .result "Tool executed successfully but returned no content"
    | item :: _ =>
      .result (match item.text with
        | some t => if t = "" then item.strRepr else t
        | none => item.strRepr)

/-- Escape one character as in `json.dumps` (quote, backslash and the
common control characters; other characters pass through). -/
def jsonEscapeChar (c : Char) : String :=
  if c = '"' then "\\\""
  else if c = '\\' then "\\\\"
  else if c = '\n' then "\\n"
  else if c = '\t' then "\\t"
  else if c = '\r' then "\\r"
  else String.singleton c

/-- `json.dumps` of a string value. -/
def jsonQuote (s : String) : String :=
  "\"" ++ String.join (s.data.map jsonEscapeChar) ++ "\""

/-- `json.dumps(tool_result)` for the single-key dicts produced by
`_execute_mcp_tool`. -/
def dumpsToolResult : ToolExecOutcome → String
  | .result s => "\x7b\"result\": " ++ jsonQuote s ++ "\x7d"
  | .error s => "\x7b\"error\": " ++ jsonQuote s ++ "\x7d"

/-- `functions=litellm_functions if litellm_functions else None`: an empty
function list is passed to the backend as `None`. -/
def optFns (fns : List FunctionDef) : Option (List FunctionDef) :=
  if fns.isEmpty then none else some fns

/-- The external collaborators of one orchestration run, as oracles:
tool discovery, the LiteLLM backend (indexed by the attempt number and
given the conversation and offered functions; `.error` = a raised
exception), the MCP `call_tool` transport (indexed by the invocation
number), and `json.loads` restricted to `JSONDecodeError` (`none`). -/
structure Env where
  fetchTools : Except String (List MCPTool)
  llm : Nat → List Msg → Option (List FunctionDef) → Except String LLMResponse
  callTool : Nat → Option String → Json → Except String CallToolResult
  jsonLoads : String → Option Json

/-- Observable events of one run: each LiteLLM call (with the
conversation snapshot passed to it and the tool-call counter at that
moment) and each MCP tool invocation (with the counter value just after
its increment). -/
inductive Event where
  | modelCall (snapshot : List Msg) (countAtCall : Nat) : Event
  | toolInvoke (tool_name : Option String) (args : Json) (countAfter : Nat) : Event

/-- Result of the `while` loop: the outcome (or a raised exception with
the counter value at the raise), the final conversation, and the events. -/
inductive Outcome where
  | success (response : String) (tool_calls_made : Nat) (total_tokens : Nat) : Outcome
  | exhausted (error : String) (tool_calls_made : Nat) (partialResponse : String) : Outcome
  | failed (error : String) (tool_calls_made : Nat) : Outcome
deriving DecidableEq

structure LoopResult where
  result : Except (String × Nat) Outcome
  msgs : List Msg
  events : List Event

/-- `f"Maximum tool calls (\x7bmax_tool_calls\x7d) reached"`. -/
def maxCallsMsg (max_tool_calls : Nat) : String :=
  "Maximum tool calls (" ++ toString max_tool_calls ++ ") reached"

/-- `messages[-1].get("content", "") if messages else ""`. -/
def lastContent (msgs : List Msg) : String :=
  match msgs.getLast? with
  | none => ""
  | some m => m.content.getD ""

/-- The `while tool_call_count < max_tool_calls` loop of
`process_request`, with `fuel = max_tool_calls - tool_call_count`
(structural recursion on `fuel`).  Each iteration calls the backend,
takes the first choice, appends the assistant message, returns success
when there is no `function_call`, and otherwise increments the counter,
parses the arguments (empty dict on `JSONDecodeError`), executes the MCP
tool and appends the function-result message. -/
def runLoop (env : Env) (fns : List FunctionDef) (max_tool_calls : Nat) :
    Nat → Nat → List Msg → LoopResult
  | 0, tool_call_count, msgs =>
    ⟨.ok (.exhausted (maxCallsMsg max_tool_calls) tool_call_count (lastContent msgs)),
      msgs, []⟩
  | fuel + 1, tool_call_count, msgs =>
    match env.llm tool_call_count msgs (optFns fns) with
    | .error e => ⟨.error (e, tool_call_count), msgs, [.modelCall msgs tool_call_count]⟩
    | .ok resp =>
      match firstChoice resp with
      | .error e => ⟨.error (e, tool_call_count), msgs, [.modelCall msgs tool_call_count]⟩
      | .ok choice =>
        let message := choice.message.getD emptyMsg
        let msgs1 := msgs ++ [message]
        match message.function_call with
        | none =>
          ⟨.ok (.success (message.content.getD "") tool_call_count (usageTokens resp)),
            msgs1, [.modelCall msgs tool_call_count]⟩
        | some fc =>
          let args := (env.jsonLoads (fc.arguments.getD "\x7b\x7d")).getD (Json.obj [])
          let tool_result := _execute_mcp_tool (env.callTool tool_call_count) fc.name args
          let function_message : Msg :=
            { role := some "function", name := fc.name,
              content := some (dumpsToolResult tool_result) }
          let rest := runLoop env fns max_tool_calls fuel (tool_call_count + 1)
            (msgs1 ++ [function_message])
          ⟨rest.result, rest.msgs,
            .modelCall msgs tool_call_count :: .toolInvoke fc.name args (tool_call_count + 1)
              :: rest.events⟩

/-- One orchestration run with full observability: `process_request`
returning, besides the outcome dict, the final conversation and the run's
events.  Discovery failure is caught by the outer `except` before the
counter exists (`tool_calls_made = 0`); an exception escaping the loop is
caught there too, with the counter accumulated so far. -/
structure RunTrace where
  outcome : Outcome
  msgs : List Msg
  events : List Event

def processTrace (env : Env) (request : String) (max_tool_calls : Nat) : RunTrace :=
  match env.fetchTools with
  | .error e => ⟨.failed e 0, [], []⟩
  | .ok mcp_tools =>
    let litellm_functions := _convert_mcp_tools_to_litellm mcp_tools
    let messages := [userMsg request]
    let r := runLoop env litellm_functions max_tool_calls max_tool_calls 0 messages
    match r.result with
    | .ok o => ⟨o, r.msgs, r.events⟩
    | .error (e, c) => ⟨.failed e c, r.msgs, r.events⟩

/-- `LiteLLMAgent.process_request`: the outcome dict of one run. -/
def process_request (env : Env) (request : String) (max_tool_calls : Nat) : Outcome :=
  (processTrace env request max_tool_calls).outcome

/-! ### Observers over outcomes, events and messages -/

/-- The `tool_calls_made` field of an outcome dict. -/
def Outcome.calls : Outcome → Nat
  | .success _ c _ => c
  | .exhausted _ c _ => c
  | .failed _ c => c

/-- Whether an outcome is the budget-exhaustion outcome (distinguished by
its `partial_response` key). -/
def isExhaustedO : Outcome → Bool
  | .exhausted _ _ _ => true
  | _ => false

/-- The counter value carried by a loop result (the outcome's
`tool_calls_made`, or the counter at the raise point). -/
def resultCalls : Except (String × Nat) Outcome → Nat
  | .ok o => o.calls
  | .error (_, c) => c

def isExhaustedR : Except (String × Nat) Outcome → Bool
  | .ok o => isExhaustedO o
  | .error _ => false

/-- The tool-call counter value attached to an event. -/
def eventCount : Event → Nat
  | .modelCall _ c => c
  | .toolInvoke _ _ c => c

def isModelCallE : Event → Bool
  | .modelCall _ _ => true
  | _ => false

def isToolInvokeE : Event → Bool
  | .toolInvoke _ _ _ => true
  | _ => false

/-- Whether the last event of a run is a tool invocation — which happens
exactly when the latest model turn was a function-call request (every
tool invocation directly follows its requesting model turn). -/
def lastIsToolInvoke (events : List Event) : Bool :=
  match events.getLast? with
  | some e => isToolInvokeE e
  | none => false

/-- Counter discipline between consecutive events: the counter is bumped
by exactly one at each tool invocation and unchanged otherwise. -/
def countStep (a b : Event) : Prop :=
  eventCount b = eventCount a + (if isToolInvokeE b then 1 else 0)

/-- The conversation snapshots passed to the LiteLLM backend, in order. -/
def modelSnaps (events : List Event) : List (List Msg) :=
  events.filterMap (fun e => match e with
    | .modelCall snapshot _ => some snapshot
    | _ => none)

/-- No dangling function-call request: every message carrying a
`function_call` is immediately followed by a `role = "function"` message
(in particular the last message carries no `function_call`). -/
def noDanglingB : List Msg → Bool
  | [] => true
  | m :: rest =>
    (m.function_call.isNone ||
      (match rest with
       | f :: _ => f.role == some "function"
       | [] => false)) && noDanglingB rest

/-- One loop iteration's growth of the conversation between two
consecutive model calls: exactly the assistant's function-call turn
followed by exactly one function-result message. -/
def ExtendsBy2 (a b : List Msg) : Prop :=
  ∃ m f, b = a ++ [m, f] ∧ m.function_call.isSome = true ∧
    f.role = some "function" ∧ f.function_call = none

/-- Whether a backend reply (or raised exception) is a well-formed
function-call turn: a reply whose first choice's message carries a
`function_call`. -/
def respHasFC : Except String LLMResponse → Bool
  | .error _ => false
  | .ok resp =>
    match resp.choices with
    | some (c :: _) =>
      (match c.message with
       | some m => m.function_call.isSome
       | none => false)
    | _ => false

/-- The argument mapping a function-call turn is executed with:
`json.loads(function_call.get("arguments", "\x7b\x7d"))`, an empty dict on
`JSONDecodeError`. -/
def fcArgs (env : Env) (fc : FunctionCall) : Json :=
  (env.jsonLoads (fc.arguments.getD "\x7b\x7d")).getD (Json.obj [])

/-- The function-result message appended after executing the tool
requested by `fc` at invocation number `c`. -/
def fcResultMsg (env : Env) (c : Nat) (fc : FunctionCall) : Msg :=
  { role := some "function", name := fc.name,
    content := some (dumpsToolResult
      (_execute_mcp_tool (env.callTool c) fc.name (fcArgs env fc))) }

/-! ### Concrete collaborators for closed instances -/

/-- An assistant turn requesting the tool `weather` with arguments
`"\x7b\x7d"`. -/
def wMsgFC : Msg :=
  { role := some "assistant",
    function_call := some { name := some "weather", arguments := some "\x7b\x7d" } }

def wRespFC : LLMResponse := { choices := some [{ message := some wMsgFC }], usage_total_tokens := some 3 }

/-- An assistant turn that is a final answer `"Hello"`. -/
def wMsgHello : Msg := { role := some "assistant", content := some "Hello" }

def wRespHello : LLMResponse := { choices := some [{ message := some wMsgHello }], usage_total_tokens := some 7 }

/-- A backend reply with no `choices` key at all. -/
def wRespNoChoices : LLMResponse := { choices := none, usage_total_tokens := some 4 }

/-- A backend reply whose `choices` key holds an empty list. -/
def wRespEmptyChoices : LLMResponse := { choices := some [], usage_total_tokens := some 2 }

/-- An assistant turn requesting `weather` with the malformed arguments
string `"not-json"`. -/
def wMsgBadArgs : Msg :=
  { role := some "assistant",
    function_call := some { name := some "weather", arguments := some "not-json" } }

def wRespBadArgs : LLMResponse := { choices := some [{ message := some wMsgBadArgs }], usage_total_tokens := some 5 }

/-- A provider reply with one text content item. -/
def wToolOk : CallToolResult := { content := [{ text := some "Sunny, 65F", strRepr := "TextContent" }] }

/-- Environment whose backend always requests a tool call. -/
def envFC : Env :=
  { fetchTools := .ok []
    llm := fun _ _ _ => .ok wRespFC
    callTool := fun _ _ _ => .ok wToolOk
    jsonLoads := fun _ => some (Json.obj []) }

/-- Environment whose backend answers `"Hello"` on the first turn. -/
def envHello : Env :=
  { fetchTools := .ok []
    llm := fun _ _ _ => .ok wRespHello
    callTool := fun _ _ _ => .ok wToolOk
    jsonLoads := fun _ => some (Json.obj []) }

/-- Environment whose tool discovery raises (connection refused). -/
def envDiscFail : Env :=
  { fetchTools := .error "Connection refused"
    llm := fun _ _ _ => .ok wRespHello
    callTool := fun _ _ _ => .ok wToolOk
    jsonLoads := fun _ => some (Json.obj []) }

/-- Environment whose backend reply has no `choices` key. -/
def envNoChoices : Env :=
  { fetchTools := .ok []
    llm := fun _ _ _ => .ok wRespNoChoices
    callTool := fun _ _ _ => .ok wToolOk
    jsonLoads := fun _ => some (Json.obj []) }

/-- Environment whose backend reply carries an empty `choices` list. -/
def envEmptyChoices : Env :=
  { fetchTools := .ok []
    llm := fun _ _ _ => .ok wRespEmptyChoices
    callTool := fun _ _ _ => .ok wToolOk
    jsonLoads := fun _ => some (Json.obj []) }

/-- Environment whose backend requests a tool call with a malformed
arguments string; its `json.loads` fails on every input. -/
def envBadArgs : Env :=
  { fetchTools := .ok []
    llm := fun _ _ _ => .ok wRespBadArgs
    callTool := fun _ _ _ => .ok wToolOk
    jsonLoads := fun _ => none }

/-! ### Helper lemmas: unfolding `runLoop` one iteration at a time -/

theorem runLoop_zero (env : Env) (fns : List FunctionDef) (mtc c : Nat) (msgs : List Msg) :
    runLoop env fns mtc 0 c msgs =
      ⟨.ok (.exhausted (maxCallsMsg mtc) c (lastContent msgs)), msgs, []⟩ := rfl

theorem runLoop_llm_error (env : Env) (fns : List FunctionDef) (mtc fuel c : Nat)
    (msgs : List Msg) (e : String)
    (h : env.llm c msgs (optFns fns) = .error e) :
    runLoop env fns mtc (fuel + 1) c msgs =
      ⟨.error (e, c), msgs, [.modelCall msgs c]⟩ := by
  simp [runLoop, h]

theorem runLoop_choice_error (env : Env) (fns : List FunctionDef) (mtc fuel c : Nat)
    (msgs : List Msg) (resp : LLMResponse) (e : String)
    (h1 : env.llm c msgs (optFns fns) = .ok resp)
    (h2 : firstChoice resp = .error e) :
    runLoop env fns mtc (fuel + 1) c msgs =
      ⟨.error (e, c), msgs, [.modelCall msgs c]⟩ := by
  simp [runLoop, h1, h2]

theorem runLoop_final (env : Env) (fns : List FunctionDef) (mtc fuel c : Nat)
    (msgs : List Msg) (resp : LLMResponse) (ch : Choice) (m : Msg)
    (h1 : env.llm c msgs (optFns fns) = .ok resp)
    (h2 : firstChoice resp = .ok ch)
    (hm : ch.message.getD emptyMsg = m)
    (hfc : m.function_call = none) :
    runLoop env fns mtc (fuel + 1) c msgs =
      ⟨.ok (.success (m.content.getD "") c (usageTokens resp)),
        msgs ++ [m], [.modelCall msgs c]⟩ := by
  simp [runLoop, h1, h2, hm, hfc]

theorem runLoop_fc (env : Env) (fns : List FunctionDef) (mtc fuel c : Nat)
    (msgs : List Msg) (resp : LLMResponse) (ch : Choice) (m : Msg) (fc : FunctionCall)
    (h1 : env.llm c msgs (optFns fns) = .ok resp)
    (h2 : firstChoice resp = .ok ch)
    (hm : ch.message.getD emptyMsg = m)
    (hfc : m.function_call = some fc) :
    runLoop env fns mtc (fuel + 1) c msgs =
      ⟨(runLoop env fns mtc fuel (c + 1) ((msgs ++ [m]) ++ [fcResultMsg env c fc])).result,
        (runLoop env fns mtc fuel (c + 1) ((msgs ++ [m]) ++ [fcResultMsg env c fc])).msgs,
        .modelCall msgs c :: .toolInvoke fc.name (fcArgs env fc) (c + 1) ::
          (runLoop env fns mtc fuel (c + 1) ((msgs ++ [m]) ++ [fcResultMsg env c fc])).events⟩ := by
  simp [runLoop, h1, h2, hm, hfc, fcArgs, fcResultMsg]

/-- Destructing a well-formed function-call turn. -/
theorem respHasFC_elim (r : Except String LLMResponse) (h : respHasFC r = true) :
    ∃ resp c cs m fc, r = .ok resp ∧ resp.choices = some (c :: cs) ∧
      c.message = some m ∧ m.function_call = some fc := by
  match r with
  | .error e => simp [respHasFC] at h
  | .ok resp =>
    match hch : resp.choices with
    | none => simp [respHasFC, hch] at h
    | some [] => simp [respHasFC, hch] at h
    | some (c :: cs) =>
      match hm : c.message with
      | none => simp [respHasFC, hch, hm] at h
      | some m =>
        match hfc : m.function_call with
        | none => simp [respHasFC, hch, hm, hfc] at h
        | some fc => exact ⟨resp, c, cs, m, fc, rfl, hch, hm, hfc⟩

/-- As long as every backend turn up to attempt `k` is a function-call
request, the loop marches through those turns: its result and final
conversation agree with those of the loop restarted at counter `k` (with
the conversation accumulated on the way). -/
theorem runLoop_skip (env : Env) (fns : List FunctionDef) (mtc k : Nat)
    (hk : ∀ i msgs f, i < k → respHasFC (env.llm i msgs f) = true) :
    ∀ fuel c msgs, c + fuel = mtc → c ≤ k → k ≤ mtc →
      ∃ msgs2, (runLoop env fns mtc fuel c msgs).result =
          (runLoop env fns mtc (mtc - k) k msgs2).result ∧
        (runLoop env fns mtc fuel c msgs).msgs =
          (runLoop env fns mtc (mtc - k) k msgs2).msgs := by
  intro fuel
  induction fuel with
  | zero =>
    intro c msgs hsum hck hkm
    have hc : c = mtc := by omega
    have hkc : k = c := by omega
    refine ⟨msgs, ?_, ?_⟩ <;> rw [hkc, hc, Nat.sub_self]
  | succ fuel ih =>
    intro c msgs hsum hck hkm
    rcases Nat.lt_or_ge c k with hlt | hge
    · have hfcr := hk c msgs (optFns fns) hlt
      obtain ⟨resp, ch, cs, m, fc, hr, hch, hm, hfc⟩ := respHasFC_elim _ hfcr
      have h2 : firstChoice resp = .ok ch := by simp [firstChoice, hch]
      have hm' : ch.message.getD emptyMsg = m := by rw [hm]; rfl
      have hstep := runLoop_fc env fns mtc fuel c msgs resp ch m fc hr h2 hm' hfc
      obtain ⟨msgs2, e1, e2⟩ :=
        ih (c + 1) ((msgs ++ [m]) ++ [fcResultMsg env c fc]) (by omega) (by omega) hkm
      exact ⟨msgs2, by rw [hstep]; exact e1, by rw [hstep]; exact e2⟩
    · have hkc : k = c := by omega
      have hmk : mtc - k = fuel + 1 := by omega
      exact ⟨msgs, by subst hkc; rw [hmk], by subst hkc; rw [hmk]⟩

/-- Counter discipline of the run's events: the event list is empty or
starts with a model call at the current counter, consecutive events step
the counter by exactly one at each tool invocation and leave it unchanged
otherwise, and no event's counter exceeds the budget. -/
theorem runLoop_events_spec (env : Env) (fns : List FunctionDef) (mtc : Nat) :
    ∀ fuel c msgs, c + fuel = mtc →
      ((runLoop env fns mtc fuel c msgs).events = [] ∨
        ∃ rest, (runLoop env fns mtc fuel c msgs).events = .modelCall msgs c :: rest) ∧
      List.Chain' countStep (runLoop env fns mtc fuel c msgs).events ∧
      (∀ e ∈ (runLoop env fns mtc fuel c msgs).events, eventCount e ≤ mtc) := by
  intro fuel
  induction fuel with
  | zero =>
    intro c msgs hsum
    rw [runLoop_zero]
    exact ⟨Or.inl rfl, List.chain'_nil, by intro e he; simp at he⟩
  | succ fuel ih =>
    intro c msgs hsum
    have hc : c < mtc := by omega
    match hr : env.llm c msgs (optFns fns) with
    | .error e =>
      rw [runLoop_llm_error env fns mtc fuel c msgs e hr]
      refine ⟨Or.inr ⟨[], rfl⟩, List.chain'_singleton _, ?_⟩
      intro e' he'
      simp at he'
      simp [he', eventCount]
      omega
    | .ok resp =>
      match hfc : firstChoice resp with
      | .error e =>
        rw [runLoop_choice_error env fns mtc fuel c msgs resp e hr hfc]
        refine ⟨Or.inr ⟨[], rfl⟩, List.chain'_singleton _, ?_⟩
        intro e' he'
        simp at he'
        simp [he', eventCount]
        omega
      | .ok ch =>
        match hm : (ch.message.getD emptyMsg).function_call with
        | none =>
          rw [runLoop_final env fns mtc fuel c msgs resp ch _ hr hfc rfl hm]
          refine ⟨Or.inr ⟨[], rfl⟩, List.chain'_singleton _, ?_⟩
          intro e' he'
          simp at he'
          simp [he', eventCount]
          omega
        | some fc =>
          rw [runLoop_fc env fns mtc fuel c msgs resp ch _ fc hr hfc rfl hm]
          obtain ⟨hhead, hchain, hbound⟩ :=
            ih (c + 1) ((msgs ++ [_]) ++ [fcResultMsg env c fc]) (by omega)
          refine ⟨Or.inr ⟨_, rfl⟩, ?_, ?_⟩
          · rw [List.chain'_cons]
            constructor
            · simp [countStep, eventCount, isToolInvokeE]
            · rw [List.chain'_cons']
              refine ⟨?_, hchain⟩
              intro y hy
              rcases hhead with hnil | ⟨rest, hrest⟩
              · rw [hnil] at hy; simp at hy
              · rw [hrest] at hy
                simp at hy
                simp [← hy, countStep, eventCount, isToolInvokeE]
          · intro e' he'
            simp only [List.mem_cons] at he'
            rcases he' with h1 | h1 | h1
            · simp [h1, eventCount]; omega
            · simp [h1, eventCount]; omega
            · exact hbound e' h1

/-- The loop's final counter value never exceeds the budget, equals the
budget exactly on the exhausted outcome, and an exhausted run whose
counter is positive ends its event log with a tool invocation (the latest
model turn was a function-call request). -/
theorem runLoop_result_spec (env : Env) (fns : List FunctionDef) (mtc : Nat) :
    ∀ fuel c msgs, c + fuel = mtc →
      resultCalls (runLoop env fns mtc fuel c msgs).result ≤ mtc ∧
      (resultCalls (runLoop env fns mtc fuel c msgs).result = mtc →
        isExhaustedR (runLoop env fns mtc fuel c msgs).result = true) ∧
      (isExhaustedR (runLoop env fns mtc fuel c msgs).result = true →
        resultCalls (runLoop env fns mtc fuel c msgs).result = mtc ∧
        (c < mtc → lastIsToolInvoke (runLoop env fns mtc fuel c msgs).events = true)) := by
  intro fuel
  induction fuel with
  | zero =>
    intro c msgs hsum
    rw [runLoop_zero]
    refine ⟨by simp [resultCalls, Outcome.calls]; omega, fun _ => rfl, fun _ => ⟨?_, ?_⟩⟩
    · simp [resultCalls, Outcome.calls]; omega
    · intro hlt; omega
  | succ fuel ih =>
    intro c msgs hsum
    have hc : c < mtc := by omega
    match hr : env.llm c msgs (optFns fns) with
    | .error e =>
      rw [runLoop_llm_error env fns mtc fuel c msgs e hr]
      exact ⟨by simp [resultCalls]; omega, by simp [resultCalls]; omega,
        by simp [isExhaustedR]⟩
    | .ok resp =>
      match hfc : firstChoice resp with
      | .error e =>
        rw [runLoop_choice_error env fns mtc fuel c msgs resp e hr hfc]
        exact ⟨by simp [resultCalls]; omega, by simp [resultCalls]; omega,
          by simp [isExhaustedR]⟩
      | .ok ch =>
        match hm : (ch.message.getD emptyMsg).function_call with
        | none =>
          rw [runLoop_final env fns mtc fuel c msgs resp ch _ hr hfc rfl hm]
          exact ⟨by simp [resultCalls, Outcome.calls]; omega,
            by simp [resultCalls, Outcome.calls]; omega,
            by simp [isExhaustedR, isExhaustedO]⟩
        | some fc =>
          rw [runLoop_fc env fns mtc fuel c msgs resp ch _ fc hr hfc rfl hm]
          obtain ⟨hb, hmax, hexh⟩ :=
            ih (c + 1) ((msgs ++ [_]) ++ [fcResultMsg env c fc]) (by omega)
          refine ⟨hb, hmax, fun hx => ⟨(hexh hx).1, fun _ => ?_⟩⟩
          rcases Nat.lt_or_ge (c + 1) mtc with hlt | hge
          · have hlast := (hexh hx).2 hlt
            match hev : (runLoop env fns mtc fuel (c + 1)
                ((msgs ++ [_]) ++ [fcResultMsg env c fc])).events with
            | [] => rw [hev] at hlast; simp [lastIsToolInvoke] at hlast
            | x :: xs =>
              rw [hev] at hlast
              simpa [lastIsToolInvoke, List.getLast?_cons_cons] using hlast
          · have hfuel : fuel = 0 := by omega
            subst hfuel
            rw [runLoop_zero]
            rfl

/-- Appending an answered function-call pair (the assistant turn and its
function-result message) preserves the no-dangling invariant. -/
theorem noDanglingB_append2 (msgs : List Msg) (m f : Msg)
    (h : noDanglingB msgs = true) (hf : f.role = some "function")
    (hfc : f.function_call = none) :
    noDanglingB (msgs ++ [m, f]) = true := by
  induction msgs with
  | nil => simp [noDanglingB, hf, hfc]
  | cons x rest ih =>
    simp only [noDanglingB, Bool.and_eq_true] at h
    obtain ⟨hx, hrest⟩ := h
    have ih' := ih hrest
    rw [List.cons_append]
    simp only [noDanglingB, Bool.and_eq_true]
    refine ⟨?_, ih'⟩
    cases rest with
    | nil =>
      simp at hx
      simp [hx]
    | cons y ys =>
      simpa using hx

/-- Conversation discipline of the run: provided the starting
conversation has no dangling function-call request, every conversation
snapshot handed to the backend is dangling-free, the first snapshot is
the starting conversation, and each later snapshot extends the previous
one by exactly the assistant's function-call turn followed by exactly one
function-result message. -/
theorem runLoop_snaps_spec (env : Env) (fns : List FunctionDef) (mtc : Nat) :
    ∀ fuel c msgs, noDanglingB msgs = true →
      (∀ s ∈ modelSnaps (runLoop env fns mtc fuel c msgs).events, noDanglingB s = true) ∧
      List.Chain' ExtendsBy2 (modelSnaps (runLoop env fns mtc fuel c msgs).events) ∧
      (modelSnaps (runLoop env fns mtc fuel c msgs).events = [] ∨
        ∃ tl, modelSnaps (runLoop env fns mtc fuel c msgs).events = msgs :: tl) := by
  intro fuel
  induction fuel with
  | zero =>
    intro c msgs hnd
    rw [runLoop_zero]
    exact ⟨by simp [modelSnaps], by simp [modelSnaps], Or.inl (by simp [modelSnaps])⟩
  | succ fuel ih =>
    intro c msgs hnd
    match hr : env.llm c msgs (optFns fns) with
    | .error e =>
      rw [runLoop_llm_error env fns mtc fuel c msgs e hr]
      refine ⟨?_, by simp [modelSnaps], Or.inr ⟨[], by simp [modelSnaps]⟩⟩
      intro s hs
      simp [modelSnaps] at hs
      rw [hs]
      exact hnd
    | .ok resp =>
      match hfc : firstChoice resp with
      | .error e =>
        rw [runLoop_choice_error env fns mtc fuel c msgs resp e hr hfc]
        refine ⟨?_, by simp [modelSnaps], Or.inr ⟨[], by simp [modelSnaps]⟩⟩
        intro s hs
        simp [modelSnaps] at hs
        rw [hs]
        exact hnd
      | .ok ch =>
        match hm : (ch.message.getD emptyMsg).function_call with
        | none =>
          rw [runLoop_final env fns mtc fuel c msgs resp ch _ hr hfc rfl hm]
          refine ⟨?_, by simp [modelSnaps], Or.inr ⟨[], by simp [modelSnaps]⟩⟩
          intro s hs
          simp [modelSnaps] at hs
          rw [hs]
          exact hnd
        | some fc =>
          rw [runLoop_fc env fns mtc fuel c msgs resp ch _ fc hr hfc rfl hm]
          have hnd' : noDanglingB
              ((msgs ++ [ch.message.getD emptyMsg]) ++ [fcResultMsg env c fc]) = true := by
            have h2 := noDanglingB_append2 msgs (ch.message.getD emptyMsg)
              (fcResultMsg env c fc) hnd rfl rfl
            simpa [List.append_assoc] using h2
          obtain ⟨hall, hchain, hhead⟩ := ih (c + 1) _ hnd'
          have hsnap : modelSnaps (Event.modelCall msgs c ::
              Event.toolInvoke fc.name (fcArgs env fc) (c + 1) ::
              (runLoop env fns mtc fuel (c + 1)
                ((msgs ++ [ch.message.getD emptyMsg]) ++ [fcResultMsg env c fc])).events) =
              msgs :: modelSnaps ((runLoop env fns mtc fuel (c + 1)
                ((msgs ++ [ch.message.getD emptyMsg]) ++ [fcResultMsg env c fc])).events) := by
            simp [modelSnaps]
          refine ⟨?_, ?_, Or.inr ⟨_, hsnap⟩⟩
          · intro s hs
            rw [hsnap] at hs
            rcases List.mem_cons.mp hs with h1 | h1
            · rw [h1]; exact hnd
            · exact hall s h1
          · rw [hsnap, List.chain'_cons']
            refine ⟨?_, hchain⟩
            intro y hy
            rcases hhead with hnil | ⟨tl, htl⟩
            · rw [hnil] at hy; simp at hy
            · rw [htl] at hy
              simp at hy
              rw [← hy]
              refine ⟨ch.message.getD emptyMsg, fcResultMsg env c fc, ?_, ?_, rfl, rfl⟩
              · simp [List.append_assoc]
              · simp [hm]

/-- Bridging a successful-discovery run to its loop: the trace's events,
conversation, counter and exhaustion status are those of the loop. -/
theorem processTrace_ok (env : Env) (req : String) (mtc : Nat) (tools : List MCPTool)
    (hf : env.fetchTools = .ok tools) :
    (processTrace env req mtc).events =
      (runLoop env (_convert_mcp_tools_to_litellm tools) mtc mtc 0 [userMsg req]).events ∧
    (processTrace env req mtc).msgs =
      (runLoop env (_convert_mcp_tools_to_litellm tools) mtc mtc 0 [userMsg req]).msgs ∧
    Outcome.calls (processTrace env req mtc).outcome =
      resultCalls (runLoop env (_convert_mcp_tools_to_litellm tools) mtc mtc 0 [userMsg req]).result ∧
    isExhaustedO (processTrace env req mtc).outcome =
      isExhaustedR (runLoop env (_convert_mcp_tools_to_litellm tools) mtc mtc 0 [userMsg req]).result := by
  rcases hr : (runLoop env (_convert_mcp_tools_to_litellm tools) mtc mtc 0 [userMsg req]).result
    with ⟨e, c⟩ | o
  · simp [processTrace, hf, hr, resultCalls, isExhaustedR, Outcome.calls, isExhaustedO]
  · simp [processTrace, hf, hr, resultCalls, isExhaustedR]

/-! ### Claim theorems -/

/-- C4 (amended): for every list of N tools the conversion returns
exactly N function specs, in input order, each preserving the tool's name
and description, with parameters equal to the tool's schema when that
schema is non-empty and equal to the default empty-object schema when the
schema is absent or empty.  (The original "if and only if" fails when a
tool's declared schema is literally the default schema; see the
counterexample.) -/
theorem C4_convert_spec (mcp_tools : List MCPTool) :
    (_convert_mcp_tools_to_litellm mcp_tools).length = mcp_tools.length ∧
    (∀ (i : Nat) (tool : MCPTool), mcp_tools[i]? = some tool →
      ∃ fd, (_convert_mcp_tools_to_litellm mcp_tools)[i]? = some fd ∧
        fd.name = tool.name ∧ fd.description = tool.description ∧
        (tool.input_schema = [] → fd.parameters = defaultSchema) ∧
        (tool.input_schema ≠ [] → fd.parameters = tool.input_schema)) := by
  constructor
  · simp [_convert_mcp_tools_to_litellm]
  · intro i tool htool
    refine ⟨FunctionDef.mk tool.name tool.description
        (if tool.input_schema.isEmpty then defaultSchema else tool.input_schema),
      ?_, rfl, rfl, ?_, ?_⟩
    · simp [_convert_mcp_tools_to_litellm, List.getElem?_map, htool]
    · intro h
      simp [h]
    · intro h
      simp [List.isEmpty_iff, h]

/-- C4 witness: the amended conversion rule at a concrete two-tool
catalog (one empty schema, one non-empty schema). -/
theorem C4_convert_spec_witness :
    ∃ fd, (_convert_mcp_tools_to_litellm
        [MCPTool.mk "echo" "repeats" [], MCPTool.mk "add" "sums" [("type", Json.str "object")]])[0]? =
      some fd ∧
      fd.name = "echo" ∧ fd.description = "repeats" ∧
      ([] = ([] : List (String × Json)) → fd.parameters = defaultSchema) ∧
      (([] : List (String × Json)) ≠ [] → fd.parameters = []) :=
  (C4_convert_spec
    [MCPTool.mk "echo" "repeats" [], MCPTool.mk "add" "sums" [("type", Json.str "object")]]).2
    0 (MCPTool.mk "echo" "repeats" []) rfl

/-- C4 counterexample: a tool whose declared (non-empty) schema is
literally the default empty-object schema.  Its function spec's
parameters equal the default schema although the tool's schema is neither
absent nor empty, so "parameters equal the default schema if and only if
the tool's schema is absent or empty" is false at this input. -/
theorem C4_counterexample :
    (MCPTool.mk "echo" "repeats" defaultSchema).input_schema ≠ [] ∧
    (_convert_mcp_tools_to_litellm [MCPTool.mk "echo" "repeats" defaultSchema])[0]? =
      some (FunctionDef.mk "echo" "repeats" defaultSchema) ∧
    ¬((FunctionDef.mk "echo" "repeats" defaultSchema).parameters = defaultSchema ↔
      (MCPTool.mk "echo" "repeats" defaultSchema).input_schema = []) := by
  refine ⟨by simp [defaultSchema], rfl, ?_⟩
  intro h
  have h2 := h.mp rfl
  simp [defaultSchema] at h2

/-- C5 (amended): the tool invoker never lets a provider/transport error
escape — it is converted into an error payload with a descriptive
message; on success with no content a sentinel string is returned; on
success with at least one content item only the first item is surfaced:
its text payload when that payload is present and non-empty, and the
item's generic string representation when the text payload is absent or
empty.  (The original claim used the representation only when the payload
is absent; the code also uses it when the payload is the empty string —
see the counterexample.) -/
theorem C5_invoke_spec (callTool : Option String → Json → Except String CallToolResult)
    (tool_name : Option String) (arguments : Json) :
    (∀ e, callTool tool_name arguments = .error e →
      _execute_mcp_tool callTool tool_name arguments =
        .error ("Tool execution failed: " ++ e)) ∧
    (∀ r, callTool tool_name arguments = .ok r → r.content = [] →
      _execute_mcp_tool callTool tool_name arguments =
        .result "Tool executed successfully but returned no content") ∧
    (∀ r item rest t, callTool tool_name arguments = .ok r → r.content = item :: rest →
      item.text = some t → t ≠ "" →
      _execute_mcp_tool callTool tool_name arguments = .result t) ∧
    (∀ r item rest, callTool tool_name arguments = .ok r → r.content = item :: rest →
      (item.text = none ∨ item.text = some "") →
      _execute_mcp_tool callTool tool_name arguments = .result item.strRepr) := by
  refine ⟨?_, ?_, ?_, ?_⟩
  · intro e h
    simp [_execute_mcp_tool, h]
  · intro r h hc
    simp [_execute_mcp_tool, h, hc]
  · intro r item rest t h hc ht hne
    simp [_execute_mcp_tool, h, hc, ht, hne]
  · intro r item rest h hc ht
    rcases ht with ht | ht <;> simp [_execute_mcp_tool, h, hc, ht]

/-- C5 witness: a transport failure is converted, not raised, at a
concrete input. -/
theorem C5_invoke_spec_witness :
    _execute_mcp_tool (fun _ _ => .error "connection refused") (some "weather") (Json.obj []) =
      .error ("Tool execution failed: " ++ "connection refused") :=
  (C5_invoke_spec (fun _ _ => .error "connection refused") (some "weather") (Json.obj [])).1
    "connection refused" rfl

/-- C5 counterexample: a first content item whose text payload is present
but empty.  The invoker surfaces the item's generic string representation
instead of the (empty) text payload, so the original claim — surface the
text payload whenever it is not absent — is false at this input. -/
theorem C5_counterexample :
    _execute_mcp_tool
        (fun _ _ => .ok (CallToolResult.mk [ContentItem.mk (some "") "RAWITEM"]))
        (some "weather") (Json.obj []) = .result "RAWITEM" ∧
    ToolExecOutcome.result "RAWITEM" ≠ ToolExecOutcome.result "" := by
  exact ⟨rfl, by decide⟩

/-- C6: when tool discovery fails, the run returns a failure outcome
carrying the discovery error's description with `tool_calls_made = 0`,
and nothing else happens in the run: its event log is empty, so the
LiteLLM backend is never invoked. -/
theorem C6_discovery_failure (env : Env) (request : String) (mtc : Nat) (e : String)
    (h : env.fetchTools = .error e) :
    process_request env request mtc = .failed e 0 ∧
    (processTrace env request mtc).events = [] := by
  constructor <;> simp [process_request, processTrace, h]

/-- C6 witness: a concrete run whose discovery raises "Connection
refused". -/
theorem C6_discovery_failure_witness :
    process_request envDiscFail "What is the weather?" 5 = .failed "Connection refused" 0 ∧
    (processTrace envDiscFail "What is the weather?" 5).events = [] :=
  C6_discovery_failure envDiscFail "What is the weather?" 5 "Connection refused" rfl

/-- C7: a function-call turn whose arguments string fails to parse is
executed anyway with the empty argument mapping — the tool invocation
event carries the empty object — and the run continues with the loop's
next iteration instead of aborting. -/
theorem C7_malformed_arguments (env : Env) (fns : List FunctionDef) (mtc fuel c : Nat)
    (msgs : List Msg) (resp : LLMResponse) (ch : Choice) (m : Msg) (fc : FunctionCall)
    (s : String)
    (h1 : env.llm c msgs (optFns fns) = .ok resp)
    (h2 : firstChoice resp = .ok ch)
    (hm : ch.message.getD emptyMsg = m)
    (hfc : m.function_call = some fc)
    (hargs : fc.arguments = some s)
    (hbad : env.jsonLoads s = none) :
    (runLoop env fns mtc (fuel + 1) c msgs).events =
      Event.modelCall msgs c :: Event.toolInvoke fc.name (Json.obj []) (c + 1) ::
        (runLoop env fns mtc fuel (c + 1) ((msgs ++ [m]) ++ [fcResultMsg env c fc])).events ∧
    (runLoop env fns mtc (fuel + 1) c msgs).result =
      (runLoop env fns mtc fuel (c + 1) ((msgs ++ [m]) ++ [fcResultMsg env c fc])).result := by
  have hargs0 : fcArgs env fc = Json.obj [] := by simp [fcArgs, hargs, hbad]
  rw [runLoop_fc env fns mtc fuel c msgs resp ch m fc h1 h2 hm hfc, hargs0]
  exact ⟨rfl, rfl⟩

/-- C7 witness: the malformed arguments string "not-json" at a concrete
run step. -/
theorem C7_malformed_arguments_witness :
    (runLoop envBadArgs [] 5 1 0 [userMsg "q"]).events =
      Event.modelCall [userMsg "q"] 0 ::
        Event.toolInvoke (some "weather") (Json.obj []) 1 ::
        (runLoop envBadArgs [] 5 0 1
          (([userMsg "q"] ++ [wMsgBadArgs]) ++
            [fcResultMsg envBadArgs 0 (FunctionCall.mk (some "weather") (some "not-json"))])).events ∧
    (runLoop envBadArgs [] 5 1 0 [userMsg "q"]).result =
      (runLoop envBadArgs [] 5 0 1
        (([userMsg "q"] ++ [wMsgBadArgs]) ++
          [fcResultMsg envBadArgs 0 (FunctionCall.mk (some "weather") (some "not-json"))])).result :=
  C7_malformed_arguments envBadArgs [] 5 0 0 [userMsg "q"] wRespBadArgs
    (Choice.mk (some wMsgBadArgs)) wMsgBadArgs
    (FunctionCall.mk (some "weather") (some "not-json")) "not-json" rfl rfl rfl rfl rfl rfl

/-- C8: whenever every backend turn before attempt `k` requests a
function call and the turn at attempt `k` carries no function-call
request, the run ends at attempt `k` with a success outcome whose
response text is that turn's content, whose `tool_calls_made` is the
count accumulated so far (`k`, unchanged by this turn), and whose token
usage is taken from this turn's reply. -/
theorem C8_final_answer (env : Env) (req : String) (mtc k : Nat) (tools : List MCPTool)
    (resp : LLMResponse) (ch : Choice) (m : Msg)
    (hf : env.fetchTools = .ok tools)
    (hk : k < mtc)
    (hfcpre : ∀ i msgs f, i < k → respHasFC (env.llm i msgs f) = true)
    (hresp : ∀ msgs f, env.llm k msgs f = .ok resp)
    (hch : firstChoice resp = .ok ch)
    (hm : ch.message.getD emptyMsg = m)
    (hnofc : m.function_call = none) :
    process_request env req mtc = .success (m.content.getD "") k (usageTokens resp) := by
  obtain ⟨msgs2, e1, _⟩ := runLoop_skip env (_convert_mcp_tools_to_litellm tools) mtc k hfcpre
    mtc 0 [userMsg req] (by omega) (by omega) (by omega)
  have hfu : mtc - k = (mtc - k - 1) + 1 := by omega
  rw [hfu, runLoop_final env (_convert_mcp_tools_to_litellm tools) mtc (mtc - k - 1) k msgs2
    resp ch m (hresp msgs2 (optFns (_convert_mcp_tools_to_litellm tools))) hch hm hnofc] at e1
  simp [process_request, processTrace, hf, e1]

/-- C8 witness (Scenario A): the model's first turn is the final answer
"Hello" — the outcome is success with response "Hello", zero tool calls,
and this turn's token usage. -/
theorem C8_final_answer_witness :
    process_request envHello "hi" 5 = .success "Hello" 0 7 :=
  C8_final_answer envHello "hi" 5 0 [] wRespHello (Choice.mk (some wMsgHello)) wMsgHello
    rfl (by decide) (fun i _ _ h => absurd h (Nat.not_lt_zero i)) (fun _ _ => rfl) rfl rfl rfl

/-- C9: the first element of the reply's `choices` list is the
authoritative turn, and a reply with no `choices` key at all is treated
as an empty default turn — the loop goes through the normal final-answer
path with empty content and this reply's token usage, not a hard
failure. -/
theorem C9_missing_choices (u : Option Nat) :
    (∀ (c : Choice) (cs : List Choice),
      firstChoice (LLMResponse.mk (some (c :: cs)) u) = .ok c) ∧
    firstChoice (LLMResponse.mk none u) = .ok (Choice.mk none) ∧
    (∀ (env : Env) (fns : List FunctionDef) (mtc fuel cnt : Nat) (msgs : List Msg)
      (resp : LLMResponse),
      env.llm cnt msgs (optFns fns) = .ok resp → resp.choices = none →
      (runLoop env fns mtc (fuel + 1) cnt msgs).result =
        .ok (.success "" cnt (usageTokens resp))) := by
  refine ⟨fun c cs => rfl, rfl, ?_⟩
  intro env fns mtc fuel cnt msgs resp h1 hnone
  have h2 : firstChoice resp = .ok (Choice.mk none) := by simp [firstChoice, hnone]
  rw [runLoop_final env fns mtc fuel cnt msgs resp (Choice.mk none) emptyMsg h1 h2 rfl rfl]
  rfl

/-- C9 witness: a concrete reply with no `choices` key yields a success
outcome with empty content and the reply's usage. -/
theorem C9_missing_choices_witness :
    (runLoop envNoChoices [] 5 1 0 [userMsg "q"]).result =
      .ok (.success "" 0 4) :=
  (C9_missing_choices (some 4)).2.2 envNoChoices [] 5 0 0 [userMsg "q"] wRespNoChoices rfl rfl

/-- C10: a reply whose `choices` key holds an empty list is not given the
missing-key default: indexing its first choice raises, the exception
unwinds to the run boundary, and the run returns a failure outcome with
the indexing error's description and the call count accumulated so
far. -/
theorem C10_empty_choices (env : Env) (req : String) (mtc k : Nat) (tools : List MCPTool)
    (resp : LLMResponse)
    (hf : env.fetchTools = .ok tools)
    (hk : k < mtc)
    (hfcpre : ∀ i msgs f, i < k → respHasFC (env.llm i msgs f) = true)
    (hresp : ∀ msgs f, env.llm k msgs f = .ok resp)
    (hempty : resp.choices = some []) :
    process_request env req mtc = .failed "list index out of range" k := by
  obtain ⟨msgs2, e1, _⟩ := runLoop_skip env (_convert_mcp_tools_to_litellm tools) mtc k hfcpre
    mtc 0 [userMsg req] (by omega) (by omega) (by omega)
  have hch : firstChoice resp = .error "list index out of range" := by
    simp [firstChoice, hempty]
  have hfu : mtc - k = (mtc - k - 1) + 1 := by omega
  rw [hfu, runLoop_choice_error env (_convert_mcp_tools_to_litellm tools) mtc (mtc - k - 1) k
    msgs2 resp "list index out of range"
    (hresp msgs2 (optFns (_convert_mcp_tools_to_litellm tools))) hch] at e1
  simp [process_request, processTrace, hf, e1]

/-- C10 witness: a concrete first reply with `choices = []` makes the run
fail with the indexing error and zero tool calls. -/
theorem C10_empty_choices_witness :
    process_request envEmptyChoices "q" 5 = .failed "list index out of range" 0 :=
  C10_empty_choices envEmptyChoices "q" 5 0 [] wRespEmptyChoices rfl (by decide)
    (fun i _ _ h => absurd h (Nat.not_lt_zero i)) (fun _ _ => rfl) rfl

/-- C2: a run whose every backend turn (within the budget) is a
function-call request exhausts the budget: the outcome is the failure
outcome with error text exactly "Maximum tool calls (N) reached",
`tool_calls_made` equal to the configured budget, and partial result the
content field of the most recent conversation message. -/
theorem C2_budget_exhausted (env : Env) (req : String) (mtc : Nat) (tools : List MCPTool)
    (hf : env.fetchTools = .ok tools)
    (hfc : ∀ i msgs f, i < mtc → respHasFC (env.llm i msgs f) = true) :
    process_request env req mtc =
      .exhausted ("Maximum tool calls (" ++ toString mtc ++ ") reached") mtc
        (lastContent (processTrace env req mtc).msgs) := by
  obtain ⟨msgs2, e1, e2⟩ := runLoop_skip env (_convert_mcp_tools_to_litellm tools) mtc mtc hfc
    mtc 0 [userMsg req] (by omega) (by omega) (le_refl mtc)
  rw [Nat.sub_self, runLoop_zero] at e1 e2
  simp only at e1 e2
  have hm : (processTrace env req mtc).msgs = msgs2 := by
    simp [processTrace, hf, e1, e2]
  rw [hm]
  simp [process_request, processTrace, hf, e1, maxCallsMsg]

/-- C2 witness (Scenario C): five function-call turns in a row with a
budget of five. -/
theorem C2_budget_exhausted_witness :
    process_request envFC "q" 5 =
      .exhausted ("Maximum tool calls (" ++ toString 5 ++ ") reached") 5
        (lastContent (processTrace envFC "q" 5).msgs) :=
  C2_budget_exhausted envFC "q" 5 [] rfl (fun _ _ _ _ => rfl)

/-- C3: the conversation never contains a dangling, unanswered
function-call request when control returns to the backend: every
conversation snapshot passed to the backend is dangling-free, the first
is the seeded user message, and each later one extends the previous by
exactly the assistant's function-call turn followed by exactly one
function-result message (role `function`, carrying the tool name and the
string-encoded tool result) appended before the next backend call. -/
theorem C3_no_dangling_request (env : Env) (req : String) (mtc : Nat) :
    (∀ s ∈ modelSnaps (processTrace env req mtc).events, noDanglingB s = true) ∧
    List.Chain' ExtendsBy2 (modelSnaps (processTrace env req mtc).events) ∧
    (modelSnaps (processTrace env req mtc).events = [] ∨
      ∃ tl, modelSnaps (processTrace env req mtc).events = [userMsg req] :: tl) := by
  rcases hf : env.fetchTools with e | tools
  · refine ⟨?_, ?_, Or.inl ?_⟩ <;> simp [processTrace, hf, modelSnaps]
  · obtain ⟨hev, _, _, _⟩ := processTrace_ok env req mtc tools hf
    rw [hev]
    exact runLoop_snaps_spec env (_convert_mcp_tools_to_litellm tools) mtc mtc 0
      [userMsg req] rfl

/-- C3 witness: in a concrete one-iteration run the (single) snapshot
passed to the backend is the dangling-free seed conversation. -/
theorem C3_no_dangling_request_witness :
    noDanglingB [userMsg "q"] = true :=
  (C3_no_dangling_request envFC "q" 1).1 [userMsg "q"] (by
    have h : modelSnaps (processTrace envFC "q" 1).events = [[userMsg "q"]] := rfl
    rw [h]
    exact List.mem_singleton.mpr rfl)

/-- C1 (amended): within any run the tool-call counter starts at zero
(the first event, if any, is the backend call on the seed conversation
with counter 0), steps by exactly one at each tool invocation and is
unchanged otherwise (hence is monotonically non-decreasing), and never
exceeds the configured `max_tool_calls` in any event or outcome; and for
`max_tool_calls ≥ 1` the run ends in the exhausted outcome exactly when
the final counter equals `max_tool_calls` and the latest model turn is
still a function-call request (the event log ends with a tool
invocation).  (For `max_tool_calls = 0` the original "exactly when" fails:
the run is exhausted without any model turn at all — see the
counterexample.) -/
theorem C1_counter_invariants (env : Env) (req : String) (mtc : Nat) :
    (∀ e, (processTrace env req mtc).events.head? = some e →
      e = Event.modelCall [userMsg req] 0) ∧
    List.Chain' countStep (processTrace env req mtc).events ∧
    (∀ e ∈ (processTrace env req mtc).events, eventCount e ≤ mtc) ∧
    Outcome.calls (processTrace env req mtc).outcome ≤ mtc ∧
    (1 ≤ mtc →
      (isExhaustedO (processTrace env req mtc).outcome = true ↔
        Outcome.calls (processTrace env req mtc).outcome = mtc ∧
        lastIsToolInvoke (processTrace env req mtc).events = true)) := by
  rcases hf : env.fetchTools with e | tools
  · refine ⟨?_, ?_, ?_, ?_, ?_⟩ <;> simp [processTrace, hf, Outcome.calls, isExhaustedO]
    omega
  · obtain ⟨hev, _, hcalls, hexh⟩ := processTrace_ok env req mtc tools hf
    obtain ⟨hhead, hchain, hbound⟩ := runLoop_events_spec env
      (_convert_mcp_tools_to_litellm tools) mtc mtc 0 [userMsg req] (by omega)
    obtain ⟨hrb, hrmax, hrexh⟩ := runLoop_result_spec env
      (_convert_mcp_tools_to_litellm tools) mtc mtc 0 [userMsg req] (by omega)
    refine ⟨?_, ?_, ?_, ?_, ?_⟩
    · intro ev hevd
      rw [hev] at hevd
      rcases hhead with hnil | ⟨rest, hrest⟩
      · rw [hnil] at hevd; simp at hevd
      · rw [hrest] at hevd
        simp at hevd
        exact hevd.symm
    · rw [hev]; exact hchain
    · rw [hev]; exact hbound
    · rw [hcalls]; exact hrb
    · intro hpos
      rw [hcalls, hexh, hev]
      constructor
      · intro hx
        exact ⟨(hrexh hx).1, (hrexh hx).2 (by omega)⟩
      · intro hx
        exact hrmax hx.1

/-- C1 witness: the counter invariants and the exhaustion
characterization at a concrete one-iteration run. -/
theorem C1_counter_invariants_witness :
    Event.modelCall [userMsg "q"] 0 = Event.modelCall [userMsg "q"] 0 ∧
    (isExhaustedO (processTrace envFC "q" 1).outcome = true ↔
      Outcome.calls (processTrace envFC "q" 1).outcome = 1 ∧
      lastIsToolInvoke (processTrace envFC "q" 1).events = true) :=
  ⟨(C1_counter_invariants envFC "q" 1).1 (Event.modelCall [userMsg "q"] 0) rfl,
    (C1_counter_invariants envFC "q" 1).2.2.2.2 (by decide)⟩

/-- C1 counterexample: with `max_tool_calls = 0` the run terminates in
the exhausted outcome although no model turn ever happened (the event log
is empty), so "the loop terminates exhausted exactly when the counter
equals `max_tool_calls` and the latest model turn is still a
function-call request" is false as stated. -/
theorem C1_counterexample :
    isExhaustedO (processTrace envFC "q" 0).outcome = true ∧
    (processTrace envFC "q" 0).events = [] ∧
    ¬(isExhaustedO (processTrace envFC "q" 0).outcome = true ↔
      Outcome.calls (processTrace envFC "q" 0).outcome = 0 ∧
      lastIsToolInvoke (processTrace envFC "q" 0).events = true) := by
  refine ⟨rfl, rfl, ?_⟩
  intro h
  have h2 := (h.mp rfl).2
  exact absurd h2 (by decide)

end Agent
